import Mathlib

/-!
# Tasbih counter (`script.js`): the counter store and its persistence

A shallow embedding of the class `TasbihCounter` of `script.js`: the two fields
`counters` and `totalCount`, the methods `loadFromStorage`, `saveToStorage`,
`incrementCounter` and `resetCounters`, and the part of the host (browser) they
talk to: one `localStorage` slot, `JSON.parse`/`JSON.stringify`, `confirm`.

Conventions of the embedding.

* A JavaScript string is its sequence of UTF-16 code units.
* A JavaScript number is modelled when it is an integer, `NaN` or an infinity;
  fractional numbers are outside the model. Adding 1 is exact, which is what
  IEEE doubles do for `-2^53 ≤ n < 2^53` (`SafeInt`): a statement about the
  successor of a number that was not counted up from zero carries that bound.
* The text kept in the storage slot is represented by what `JSON.parse` makes
  of it: it is empty, or it is rejected, or it yields a JSON value.
* An object is the list of its own properties in the order they were added.
  JavaScript lists integer-like names first; no method here depends on the
  order, and objects are compared by their keys and the value at each key.
* The methods that only touch the page (`updateDisplay`, `playClickSound`,
  `showResetMessage`) read the two fields and never write them; they are left
  out and taken to return. Of `animateButton` the model keeps the one way it
  fails: its `querySelector` throws when the key does not fit in a selector.
-/

namespace Tasbih

/-! ## Values -/

/-- A JavaScript string: its UTF-16 code units. -/
abbrev JSString := List Nat

/-- The UTF-16 code units of one Unicode scalar value. -/
def utf16Char (c : Char) : List Nat :=
  if c.toNat < 0x10000 then [c.toNat]
  else [0xD800 + (c.toNat - 0x10000) / 0x400, 0xDC00 + (c.toNat - 0x10000) % 0x400]

/-- The JavaScript string written as the literal `s`. -/
def utf16 (s : String) : JSString :=
  (s.toList.map utf16Char).flatten

/-- A value produced by `JSON.parse`. The members of an object are listed in
the order of the text; when a name occurs twice the later member wins. -/
inductive JSON where
  | null
  | bool (b : Bool)
  | num (n : Int)
  | str (s : JSString)
  | arr (items : List JSON)
  | obj (members : List (JSString × JSON))

/-- A JavaScript number of the model. -/
inductive Num where
  | int (n : Int)
  | nan
  | inf (negative : Bool)

/-- A value held in `counters` or in `totalCount`: a parsed JSON value, or one
of the numbers that JSON cannot write. -/
inductive Val where
  | json (j : JSON)
  | nan
  | inf (negative : Bool)

/-- The number `n` as a value. -/
def Val.ofInt (n : Int) : Val := Val.json (JSON.num n)

/-- The integer a value is, when it is an integer number. -/
def Val.asInt : Val → Option Int
  | Val.json (JSON.num n) => some n
  | _ => none

/-- A number as a value. -/
def Num.toVal : Num → Val
  | Num.int n => Val.ofInt n
  | Num.nan => Val.nan
  | Num.inf b => Val.inf b

/-- The integers `n` for which the double `n + 1` is the integer `n + 1`. -/
def SafeInt (n : Int) : Prop := -(2 ^ 53) ≤ n ∧ n < 2 ^ 53

/-- The number `x + 1`, exact on the integers: this is the sum the code
computes when `SafeInt n` holds. -/
def Num.succ : Num → Num
  | Num.int n => Num.int (n + 1)
  | Num.nan => Num.nan
  | Num.inf b => Num.inf b

/-- Truthiness of a parsed value (`ToBoolean`). -/
def JSON.truthy : JSON → Bool
  | JSON.null => false
  | JSON.bool b => b
  | JSON.num n => n != 0
  | JSON.str s => !s.isEmpty
  | JSON.arr _ => true
  | JSON.obj _ => true

/-- What `JSON.stringify` followed by `JSON.parse` makes of a value: `NaN` and
the infinities are written as `null`. -/
def jsonify : Val → JSON
  | Val.json j => j
  | Val.nan => JSON.null
  | Val.inf _ => JSON.null

/-! ## Objects -/

/-- A plain object: its own properties, all enumerable data properties. -/
abbrev Obj := List (JSString × Val)

/-- The value of the own property `k`, if there is one. -/
def getOwn : Obj → JSString → Option Val
  | [], _ => none
  | (k', v) :: rest, k => if k' = k then some v else getOwn rest k

/-- Assignment `o[k] = v`: an existing own property keeps its place, a new one
is added at the end. -/
def put : Obj → JSString → Val → Obj
  | [], k, v => [(k, v)]
  | (k', v') :: rest, k, v => if k' = k then (k', v) :: rest else (k', v') :: put rest k v

/-- The names of the own properties (`Object.keys`). -/
def ownKeys (o : Obj) : List JSString := o.map Prod.fst

/-- One spread element `...src` of an object literal, applied to the object
built so far. -/
def spread (target : Obj) (src : List (JSString × Val)) : Obj :=
  src.foldl (fun acc p => put acc p.1 p.2) target

/-- The property name of the array index `i`. -/
def indexKey (i : Nat) : JSString := utf16 (toString i)

/-- The own enumerable properties that a spread element copies from the value
of an expression: nothing for `undefined`, `null`, booleans and numbers, the
members for an object, the indexed elements for an array, the indexed code
units for a string. -/
def enumerableOwn : Option JSON → List (JSString × Val)
  | some (JSON.obj ms) => ms.map (fun m => (m.1, Val.json m.2))
  | some (JSON.arr xs) => xs.enum.map (fun p => (indexKey p.1, Val.json p.2))
  | some (JSON.str s) => s.enum.map (fun p => (indexKey p.1, Val.json (JSON.str [p.2])))
  | _ => []

/-- The member called `name` of a parsed object: the last one of that name. -/
def member (ms : List (JSString × JSON)) (name : JSString) : Option JSON :=
  ms.foldl (fun acc m => if m.1 = name then some m.2 else acc) none

/-- Errors a JavaScript operation can throw here. -/
inductive JSError where
  | typeError
  | syntaxError
  | storageError
  deriving DecidableEq

/-- Property read `data.name`, for a name that is neither an index nor
`length` (it is used for `counters` and `totalCount`): a `TypeError` on
`null`, the member for an object, `undefined` (here `none`) otherwise. -/
def getField (data : JSON) (name : JSString) : Except JSError (Option JSON) :=
  match data with
  | JSON.null => Except.error JSError.typeError
  | JSON.obj ms => Except.ok (member ms name)
  | _ => Except.ok none

/-- The expression `x || 0` for the value `x` of a property read. -/
def orZero : Option JSON → Val
  | some j => if j.truthy then Val.json j else Val.ofInt 0
  | none => Val.ofInt 0

/-! ## The store, the storage slot and the host -/

/-- The two fields of a `TasbihCounter`. -/
structure Store where
  counters : Obj
  totalCount : Val

/-- The item of `localStorage` under `storageKey`, seen through `JSON.parse`:
no item, the empty text, a text `JSON.parse` rejects, or a text it accepts. -/
inductive Slot where
  | missing
  | empty
  | invalid
  | record (data : JSON)

/-- A counter object together with the storage slot it reads and writes. -/
structure World where
  store : Store
  slot : Slot

/-- What the browser does during one call. -/
structure Host where
  /-- `localStorage.getItem` returns (it throws otherwise) -/
  readOk : Bool
  /-- `localStorage.setItem` returns (it throws otherwise) -/
  writeOk : Bool
  /-- the answer given to `confirm` -/
  confirm : Bool
  /-- the value of `new Date().toISOString()` -/
  now : JSString
  /-- `ToNumber` of a string, an array or an object; `none` is a `TypeError` -/
  toNumber : JSON → Option Num
  /-- for a key with a double quote, a backslash or a line break: does
  `document.querySelector` accept the selector `animateButton` builds from it -/
  selectorAccepted : JSString → Bool

/-- How a call ends: the world it leaves, and the error it throws if any. -/
structure Completion where
  world : World
  error : Option JSError

/-- The four phrases, the keys written in the constructor. -/
def knownKeys : List JSString :=
  [utf16 "سبحان الله وبحمده", utf16 "الحمد لله", utf16 "الله أكبر", utf16 "اللهم ارفع درجته"]

/-- The fields as the constructor sets them, before `init` runs. -/
def constructed : Store :=
  { counters :=
      [(utf16 "سبحان الله وبحمده", Val.ofInt 0),
       (utf16 "الحمد لله", Val.ofInt 0),
       (utf16 "الله أكبر", Val.ofInt 0),
       (utf16 "اللهم ارفع درجته", Val.ofInt 0)],
    totalCount := Val.ofInt 0 }

/-! ## `loadFromStorage` -/

/-- The statements inside `try` of `loadFromStorage`. The read of
`data.counters` is the last point that can throw and comes before both
assignments: `data.totalCount` throws only when `data` is `null`, and then
`data.counters` has thrown already. -/
def loadBody (h : Host) (w : World) : Except JSError Store :=
  if h.readOk then
    match w.slot with
    | Slot.missing => Except.ok w.store
    | Slot.empty => Except.ok w.store
    | Slot.invalid => Except.error JSError.syntaxError
    | Slot.record data =>
      match getField data (utf16 "counters") with
      | Except.error e => Except.error e
      | Except.ok c =>
        match getField data (utf16 "totalCount") with
        | Except.error e => Except.error e
        | Except.ok t =>
          Except.ok
            { counters := spread (spread [] w.store.counters) (enumerableOwn c),
              totalCount := orZero t }
  else Except.error JSError.storageError

/-- Method `loadFromStorage`: the `catch` clause only logs. -/
def loadFromStorage (h : Host) (w : World) : Completion :=
  match loadBody h w with
  | Except.ok s => { world := { w with store := s }, error := none }
  | Except.error _ => { world := w, error := none }

/-! ## `saveToStorage` -/

/-- The value `JSON.parse` reads back from the text `saveToStorage` writes. -/
def serialize (s : Store) (now : JSString) : JSON :=
  JSON.obj
    [(utf16 "counters", JSON.obj (s.counters.map (fun p => (p.1, jsonify p.2)))),
     (utf16 "totalCount", jsonify s.totalCount),
     (utf16 "lastUpdated", JSON.str now)]

/-- The statements inside `try` of `saveToStorage`. -/
def saveBody (h : Host) (w : World) : Except JSError World :=
  if h.writeOk then Except.ok { w with slot := Slot.record (serialize w.store h.now) }
  else Except.error JSError.storageError

/-- Method `saveToStorage`: the `catch` clause only logs. -/
def saveToStorage (h : Host) (w : World) : Completion :=
  match saveBody h w with
  | Except.ok w' => { world := w', error := none }
  | Except.error _ => { world := w, error := none }

/-! ## `incrementCounter` -/

/-- `ToNumeric` of a stored value; `none` is a `TypeError`. -/
def toNumeric (h : Host) : Val → Option Num
  | Val.json (JSON.num n) => some (Num.int n)
  | Val.json JSON.null => some (Num.int 0)
  | Val.json (JSON.bool b) => some (Num.int (if b then 1 else 0))
  | Val.json j => h.toNumber j
  | Val.nan => some Num.nan
  | Val.inf b => some (Num.inf b)

/-- The value `x++` stores; `none` when it throws. -/
def postIncrement (h : Host) (v : Val) : Option Val :=
  (toNumeric h v).map (fun x => x.succ.toVal)

/-- A code unit that can stand as it is inside a double-quoted CSS string:
not the double quote, the backslash, a line feed, a form feed or a carriage
return. -/
def plainUnit (u : Nat) : Bool := u != 34 && u != 92 && u != 10 && u != 12 && u != 13

/-- Method `animateButton`, as far as it can fail: it passes the text
`[data-tasbih="` + key + `"]` to `document.querySelector`, which throws a
`SyntaxError` when that text is not a selector. A key of plain code units
always gives an attribute selector; for any other key the host decides. -/
def animateButton (h : Host) (tasbihText : JSString) : Option JSError :=
  if tasbihText.all plainUnit || h.selectorAccepted tasbihText then none
  else some JSError.syntaxError

/-- Method `incrementCounter`. The guard calls whatever `counters` has under
the name `hasOwnProperty`: an own property of that name is data and calling it
throws. The call of `animateButton` comes after the state is saved. -/
def incrementCounter (h : Host) (w : World) (tasbihText : JSString) : Completion :=
  match getOwn w.store.counters (utf16 "hasOwnProperty") with
  | some _ => { world := w, error := some JSError.typeError }
  | none =>
    match getOwn w.store.counters tasbihText with
    | none => { world := w, error := none }
    | some old =>
      match postIncrement h old with
      | none => { world := w, error := some JSError.typeError }
      | some v =>
        let counters := put w.store.counters tasbihText v
        match postIncrement h w.store.totalCount with
        | none =>
          { world := { w with store := { w.store with counters := counters } },
            error := some JSError.typeError }
        | some t =>
          let saved := saveToStorage h { w with store := { counters := counters, totalCount := t } }
          match animateButton h tasbihText with
          | none => saved
          | some e => { world := saved.world, error := some e }

/-! ## `resetCounters` -/

/-- Method `resetCounters`. -/
def resetCounters (h : Host) (w : World) : Completion :=
  if h.confirm then
    let counters :=
      (ownKeys w.store.counters).foldl (fun acc key => put acc key (Val.ofInt 0)) w.store.counters
    saveToStorage h { w with store := { counters := counters, totalCount := Val.ofInt 0 } }
  else { world := w, error := none }

/-! ## Sessions -/

/-- A call made by the page on the counter object. -/
inductive Call where
  | increment (key : JSString)
  | reset

/-- One call under the given host behaviour; a call that throws leaves the
world it had reached. -/
def step (w : World) (c : Host × Call) : World :=
  match c.2 with
  | Call.increment key => (incrementCounter c.1 w key).world
  | Call.reset => (resetCounters c.1 w).world

/-- A sequence of calls. -/
def run (w : World) (cs : List (Host × Call)) : World := cs.foldl step w

/-- Page load: the constructor, then `loadFromStorage` from `init`. -/
def boot (h : Host) (slot : Slot) : World :=
  (loadFromStorage h { store := constructed, slot := slot }).world

/-- The sum of the values of an object all of whose values are integers. -/
def sumValues : Obj → Option Int
  | [] => some 0
  | (_, v) :: rest =>
    match v.asInt, sumValues rest with
    | some n, some m => some (n + m)
    | _, _ => none

/-- A host where storage works, `confirm` is accepted and every string, array
or object converts to `NaN`. -/
def plainHost : Host :=
  { readOk := true, writeOk := true, confirm := true, now := utf16 "2024-01-01T00:00:00.000Z",
    toNumber := fun _ => some Num.nan, selectorAccepted := fun _ => false }

/-- The names of the properties a page load copies from the stored record:
those of the value of its `counters` field. -/
def recordKeys : Slot → List JSString
  | Slot.record data =>
    match getField data (utf16 "counters") with
    | Except.ok c => (enumerableOwn c).map Prod.fst
    | Except.error _ => []
  | _ => []

/-- The states in which `counters` holds exactly the four phrases, each with a
natural number, and `totalCount` is their sum. -/
def FourCounts (s : Store) : Prop :=
  ∃ a b c d : ℕ,
    s.counters = List.zip knownKeys [Val.ofInt a, Val.ofInt b, Val.ofInt c, Val.ofInt d] ∧
    s.totalCount = Val.ofInt (a + b + c + d)

/-- The state of the reset scenario: counts 2, 3, 0, 1 and total 6. -/
def scenarioStore : Store :=
  { counters := List.zip knownKeys [Val.ofInt 2, Val.ofInt 3, Val.ofInt 0, Val.ofInt 1],
    totalCount := Val.ofInt 6 }

/-- The record of the load scenario as the specification writes it, with the
field name `counts`: the third phrase at 5, `totalCount` 5. -/
def countsRecord : JSON :=
  JSON.obj
    [(utf16 "counts", JSON.obj [(utf16 "الله أكبر", JSON.num 5)]),
     (utf16 "totalCount", JSON.num 5)]

/-- A record without `totalCount`: the third phrase at 5. -/
def noTotalRecord : JSON :=
  JSON.obj [(utf16 "counters", JSON.obj [(utf16 "الله أكبر", JSON.num 5)])]

/-- A record whose `counters` object has a key `x` outside the four phrases. -/
def extraKeyRecord : JSON :=
  JSON.obj
    [(utf16 "counters", JSON.obj [(utf16 "x", JSON.num 1)]),
     (utf16 "totalCount", JSON.num 1)]

/-- A record whose `counters` object has a key named `hasOwnProperty`. -/
def shadowRecord : JSON :=
  JSON.obj
    [(utf16 "counters", JSON.obj [(utf16 "hasOwnProperty", JSON.num 1)]),
     (utf16 "totalCount", JSON.num 1)]

/-- The worlds a page can be in: a page load from some slot, then calls. -/
def Reachable (w : World) : Prop :=
  ∃ (h₀ : Host) (slot : Slot) (calls : List (Host × Call)), w = run (boot h₀ slot) calls

/-! ## Objects: reading after writing -/

theorem getOwn_put_self (o : Obj) (k : JSString) (v : Val) : getOwn (put o k v) k = some v := by
  induction o with
  | nil => simp [put, getOwn]
  | cons p rest ih =>
    obtain ⟨k', v'⟩ := p
    by_cases hk : k' = k
    · simp [put, getOwn, hk]
    · simp [put, getOwn, hk, ih]

theorem getOwn_put_ne (o : Obj) (k k' : JSString) (v : Val) (hne : k' ≠ k) :
    getOwn (put o k v) k' = getOwn o k' := by
  induction o with
  | nil =>
    have : ¬ k = k' := fun e => hne e.symm
    simp [put, getOwn, this]
  | cons p rest ih =>
    obtain ⟨k₁, v₁⟩ := p
    by_cases hk : k₁ = k
    · subst hk
      have : ¬ k₁ = k' := fun e => hne e.symm
      simp [put, getOwn, this]
    · by_cases hk' : k₁ = k'
      · subst hk'
        simp [put, getOwn, hk]
      · simp [put, getOwn, hk, hk', ih]

theorem getOwn_isSome_iff (o : Obj) (k : JSString) : (getOwn o k).isSome = true ↔ k ∈ ownKeys o := by
  induction o with
  | nil => simp [getOwn, ownKeys]
  | cons p rest ih =>
    obtain ⟨k₁, v₁⟩ := p
    by_cases hk : k₁ = k
    · simp [getOwn, ownKeys, hk]
    · have hk' : ¬ k = k₁ := fun e => hk e.symm
      simp only [getOwn, hk, if_false, ih]
      simp [ownKeys, hk']

theorem getOwn_eq_none_iff (o : Obj) (k : JSString) : getOwn o k = none ↔ k ∉ ownKeys o := by
  rw [← getOwn_isSome_iff]
  cases getOwn o k <;> simp

theorem mem_ownKeys_of_getOwn {o : Obj} {k : JSString} {v : Val} (hv : getOwn o k = some v) :
    k ∈ ownKeys o := by
  rw [← getOwn_isSome_iff, hv]; rfl

theorem ownKeys_put_of_mem (o : Obj) (k : JSString) (v : Val) (hk : k ∈ ownKeys o) :
    ownKeys (put o k v) = ownKeys o := by
  induction o with
  | nil => simp [ownKeys] at hk
  | cons p rest ih =>
    obtain ⟨k₁, v₁⟩ := p
    by_cases h₁ : k₁ = k
    · simp [put, ownKeys, h₁]
    · have hrest : k ∈ ownKeys rest := by
        have h₂ : ¬ k = k₁ := fun e => h₁ e.symm
        simpa [ownKeys, h₂] using hk
      have := ih hrest
      simp only [ownKeys] at this
      simp [put, ownKeys, h₁, this]

theorem ownKeys_put_of_not_mem (o : Obj) (k : JSString) (v : Val) (hk : k ∉ ownKeys o) :
    put o k v = o ++ [(k, v)] := by
  induction o with
  | nil => simp [put]
  | cons p rest ih =>
    obtain ⟨k₁, v₁⟩ := p
    have h₁ : ¬ k₁ = k := by
      intro e; apply hk; simp [ownKeys, e]
    have hrest : k ∉ ownKeys rest := by
      intro hm; apply hk; simp only [ownKeys, List.map_cons, List.mem_cons]; right; exact hm
    simp [put, h₁, ih hrest]

theorem put_eq_self (o : Obj) (k : JSString) (v : Val) (hv : getOwn o k = some v) : put o k v = o := by
  induction o with
  | nil => simp [getOwn] at hv
  | cons p rest ih =>
    obtain ⟨k₁, v₁⟩ := p
    by_cases h₁ : k₁ = k
    · simp [getOwn, h₁] at hv
      simp [put, h₁, hv]
    · simp [getOwn, h₁] at hv
      simp [put, h₁, ih hv]

/-! ## Sessions that start without a stored record -/

theorem boot_missing (h : Host) : boot h Slot.missing = { store := constructed, slot := Slot.missing } := by
  cases hr : h.readOk <;> simp [boot, loadFromStorage, loadBody, hr]

theorem fourCounts_constructed : FourCounts constructed :=
  ⟨0, 0, 0, 0, by simp [constructed, knownKeys], by simp [constructed]⟩

theorem store_saveToStorage (h : Host) (w : World) : (saveToStorage h w).world.store = w.store := by
  cases hw : h.writeOk <;> simp [saveToStorage, saveBody, hw]

theorem error_saveToStorage (h : Host) (w : World) : (saveToStorage h w).error = none := by
  cases hw : h.writeOk <;> simp [saveToStorage, saveBody, hw]

theorem animateButton_known (h : Host) (key : JSString) (hkey : key ∈ knownKeys) :
    animateButton h key = none := by
  simp only [knownKeys, List.mem_cons, List.mem_singleton, List.not_mem_nil, or_false] at hkey
  rcases hkey with e | e | e | e <;> subst e <;> simp +decide [animateButton]

theorem incrementCounter_of_int (h : Host) (w : World) (key : JSString) (c t : Int)
    (hguard : getOwn w.store.counters (utf16 "hasOwnProperty") = none)
    (hc : getOwn w.store.counters key = some (Val.ofInt c))
    (ht : w.store.totalCount = Val.ofInt t) :
    (incrementCounter h w key).world =
        (saveToStorage h
          { w with store := { counters := put w.store.counters key (Val.ofInt (c + 1)),
                              totalCount := Val.ofInt (t + 1) } }).world ∧
      (incrementCounter h w key).error = animateButton h key := by
  cases ha : animateButton h key <;>
    simp [incrementCounter, hguard, hc, ht, ha, postIncrement, toNumeric, Val.ofInt, Num.succ,
      Num.toVal, error_saveToStorage]

theorem incrementCounter_of_not_own (h : Host) (w : World) (key : JSString)
    (hkey : getOwn w.store.counters key = none) :
    (incrementCounter h w key).world = w := by
  unfold incrementCounter
  cases hg : getOwn w.store.counters (utf16 "hasOwnProperty") <;> simp [hkey]

theorem fourCounts_increment (h : Host) (w : World) (key : JSString) (hw : FourCounts w.store) :
    FourCounts (incrementCounter h w key).world.store := by
  obtain ⟨a, b, c, d, hc, ht⟩ := hw
  have hguard : getOwn w.store.counters (utf16 "hasOwnProperty") = none := by
    rw [hc]; simp +decide [knownKeys, getOwn]
  by_cases h₁ : utf16 "سبحان الله وبحمده" = key
  · subst h₁
    have hk : getOwn w.store.counters (utf16 "سبحان الله وبحمده") = some (Val.ofInt a) := by
      rw [hc]; simp +decide [knownKeys, getOwn]
    rw [(incrementCounter_of_int h w _ a _ hguard hk ht).1, store_saveToStorage]
    refine ⟨a + 1, b, c, d, ?_, ?_⟩
    · simp +decide [hc, knownKeys, put]
    · simp only [Nat.cast_add, Nat.cast_one]
      exact congrArg Val.ofInt (by ring)
  · by_cases h₂ : utf16 "الحمد لله" = key
    · subst h₂
      have hk : getOwn w.store.counters (utf16 "الحمد لله") = some (Val.ofInt b) := by
        rw [hc]; simp +decide [knownKeys, getOwn]
      rw [(incrementCounter_of_int h w _ b _ hguard hk ht).1, store_saveToStorage]
      refine ⟨a, b + 1, c, d, ?_, ?_⟩
      · simp +decide [hc, knownKeys, put]
      · simp only [Nat.cast_add, Nat.cast_one]
        exact congrArg Val.ofInt (by ring)
    · by_cases h₃ : utf16 "الله أكبر" = key
      · subst h₃
        have hk : getOwn w.store.counters (utf16 "الله أكبر") = some (Val.ofInt c) := by
          rw [hc]; simp +decide [knownKeys, getOwn]
        rw [(incrementCounter_of_int h w _ c _ hguard hk ht).1, store_saveToStorage]
        refine ⟨a, b, c + 1, d, ?_, ?_⟩
        · simp +decide [hc, knownKeys, put]
        · simp only [Nat.cast_add, Nat.cast_one]
          exact congrArg Val.ofInt (by ring)
      · by_cases h₄ : utf16 "اللهم ارفع درجته" = key
        · subst h₄
          have hk : getOwn w.store.counters (utf16 "اللهم ارفع درجته") = some (Val.ofInt d) := by
            rw [hc]; simp +decide [knownKeys, getOwn]
          rw [(incrementCounter_of_int h w _ d _ hguard hk ht).1, store_saveToStorage]
          refine ⟨a, b, c, d + 1, ?_, ?_⟩
          · simp +decide [hc, knownKeys, put]
          · simp only [Nat.cast_add, Nat.cast_one]
            exact congrArg Val.ofInt (by ring)
        · have hnone : getOwn w.store.counters key = none := by
            rw [hc]; simp +decide [knownKeys, getOwn, h₁, h₂, h₃, h₄]
          rw [incrementCounter_of_not_own h w key hnone]
          exact ⟨a, b, c, d, hc, ht⟩

theorem fourCounts_reset (h : Host) (w : World) (hw : FourCounts w.store) :
    FourCounts (resetCounters h w).world.store := by
  cases hc : h.confirm
  · simpa [resetCounters, hc] using hw
  · obtain ⟨a, b, c, d, hcs, _⟩ := hw
    refine ⟨0, 0, 0, 0, ?_, ?_⟩ <;>
      simp +decide [resetCounters, hc, store_saveToStorage, hcs, knownKeys, ownKeys, put]

theorem fourCounts_run (cs : List (Host × Call)) (w : World) (hw : FourCounts w.store) :
    FourCounts (run w cs).store := by
  induction cs generalizing w with
  | nil => simpa [run] using hw
  | cons c rest ih =>
    have hstep : FourCounts (step w c).store := by
      obtain ⟨h, call⟩ := c
      cases call with
      | increment key => exact fourCounts_increment h w key hw
      | reset => exact fourCounts_reset h w hw
    simpa [run] using ih (step w c) hstep

/-- Claim C1. Starting from the all-zero state of a page load that finds no
stored record, after every finite sequence of `incrementCounter` calls (any
key) and `resetCounters` calls (under any host behaviour: confirmed or not,
storage writes succeeding or not) every value of `counters` is an integer and
`totalCount` is the sum of all of them, a natural number. -/
theorem total_eq_sum_after_calls (h₀ : Host) (calls : List (Host × Call)) :
    ∃ n : ℕ,
      sumValues (run (boot h₀ Slot.missing) calls).store.counters = some (n : Int) ∧
      (run (boot h₀ Slot.missing) calls).store.totalCount = Val.ofInt n := by
  have hinv : FourCounts (run (boot h₀ Slot.missing) calls).store := by
    apply fourCounts_run
    rw [boot_missing]
    exact fourCounts_constructed
  obtain ⟨a, b, c, d, hc, ht⟩ := hinv
  refine ⟨a + b + c + d, ?_, ?_⟩
  · rw [hc]
    simp [knownKeys, sumValues, Val.asInt, Val.ofInt]
    ring
  · rw [ht]
    simp

/-! ## One increment -/

theorem run_increments (key : JSString) (hs : List Host) (w : World) (c t : Int)
    (hguard : getOwn w.store.counters (utf16 "hasOwnProperty") = none)
    (hc : getOwn w.store.counters key = some (Val.ofInt c))
    (ht : w.store.totalCount = Val.ofInt t) :
    getOwn (run w (hs.map (fun h => (h, Call.increment key)))).store.counters key
        = some (Val.ofInt (c + hs.length)) ∧
      (run w (hs.map (fun h => (h, Call.increment key)))).store.totalCount
        = Val.ofInt (t + hs.length) ∧
      ∀ k, k ≠ key →
        getOwn (run w (hs.map (fun h => (h, Call.increment key)))).store.counters k
          = getOwn w.store.counters k := by
  induction hs generalizing w c t with
  | nil => simp [run, hc, ht]
  | cons h rest ih =>
    have hstep : step w (h, Call.increment key) =
        (saveToStorage h
          { w with store := { counters := put w.store.counters key (Val.ofInt (c + 1)),
                              totalCount := Val.ofInt (t + 1) } }).world := by
      simp [step, (incrementCounter_of_int h w key c t hguard hc ht).1]
    have hne : utf16 "hasOwnProperty" ≠ key := by
      intro e
      rw [e, hc] at hguard
      cases hguard
    have h₁ := ih (step w (h, Call.increment key)) (c + 1) (t + 1)
      (by rw [hstep, store_saveToStorage]; simpa [getOwn_put_ne _ _ _ _ hne] using hguard)
      (by rw [hstep, store_saveToStorage]; simp [getOwn_put_self])
      (by rw [hstep, store_saveToStorage])
    obtain ⟨h₂, h₃, h₄⟩ := h₁
    simp only [run, List.map_cons, List.foldl_cons, List.length_cons] at h₂ h₃ h₄ ⊢
    refine ⟨?_, ?_, ?_⟩
    · rw [h₂]; push_cast; congr 2; ring
    · rw [h₃]; push_cast; congr 1; ring
    · intro k hk
      rw [h₄ k hk, hstep, store_saveToStorage]
      simp [getOwn_put_ne _ _ _ _ hk]

/-- Claim C2 as stated fails: after a page load from a record whose `counters`
object has a key named `hasOwnProperty`, the guard of `incrementCounter` calls
the number stored under that name, so an increment of the third phrase throws
a `TypeError` and leaves that counter at 0 and `totalCount` at 1. -/
theorem increment_shadowed_counterexample :
    utf16 "الله أكبر" ∈ knownKeys ∧
    getOwn (boot plainHost (Slot.record shadowRecord)).store.counters (utf16 "الله أكبر")
      = some (Val.ofInt 0) ∧
    (boot plainHost (Slot.record shadowRecord)).store.totalCount = Val.ofInt 1 ∧
    (incrementCounter plainHost (boot plainHost (Slot.record shadowRecord))
        (utf16 "الله أكبر")).error = some JSError.typeError ∧
    getOwn (incrementCounter plainHost (boot plainHost (Slot.record shadowRecord))
        (utf16 "الله أكبر")).world.store.counters (utf16 "الله أكبر") = some (Val.ofInt 0) ∧
    (incrementCounter plainHost (boot plainHost (Slot.record shadowRecord))
        (utf16 "الله أكبر")).world.store.totalCount = Val.ofInt 1 ∧
    getOwn (incrementCounter plainHost (boot plainHost (Slot.record shadowRecord))
        (utf16 "الله أكبر")).world.store.counters (utf16 "الله أكبر") ≠ some (Val.ofInt (0 + 1)) := by
  have h₀ : getOwn (incrementCounter plainHost (boot plainHost (Slot.record shadowRecord))
      (utf16 "الله أكبر")).world.store.counters (utf16 "الله أكبر") = some (Val.ofInt 0) := by rfl
  refine ⟨by decide, by rfl, by rfl, by rfl, h₀, by rfl, ?_⟩
  rw [h₀]
  simp [Val.ofInt]

/-- Claim C2, amended. For each of the four phrases, in every state where
`counters` has no own property named `hasOwnProperty` and `counters[key]` and
`totalCount` are integers `n` with `-2^53 ≤ n < 2^53`, `incrementCounter(key)`
returns normally, raises `counters[key]` by exactly 1, raises `totalCount` by
exactly 1, leaves every other counter as it was and keeps the set of keys.
And on the all-zero store of a page load without a record, `n` increments of
one of the four phrases give `counters[key] = n`, `totalCount = n` and leave
the three other counters at 0, whatever the host does during the calls. -/
theorem increment_known_key :
    (∀ (h : Host) (w : World) (key : JSString) (c t : Int),
      key ∈ knownKeys →
      getOwn w.store.counters (utf16 "hasOwnProperty") = none →
      getOwn w.store.counters key = some (Val.ofInt c) →
      w.store.totalCount = Val.ofInt t →
      SafeInt c → SafeInt t →
        (incrementCounter h w key).error = none ∧
        getOwn (incrementCounter h w key).world.store.counters key = some (Val.ofInt (c + 1)) ∧
        (incrementCounter h w key).world.store.totalCount = Val.ofInt (t + 1) ∧
        (∀ k, k ≠ key →
          getOwn (incrementCounter h w key).world.store.counters k = getOwn w.store.counters k) ∧
        ownKeys (incrementCounter h w key).world.store.counters = ownKeys w.store.counters) ∧
    (∀ (h₀ : Host) (hs : List Host) (key : JSString), key ∈ knownKeys →
        getOwn (run (boot h₀ Slot.missing) (hs.map (fun h => (h, Call.increment key)))).store.counters
            key = some (Val.ofInt hs.length) ∧
        (run (boot h₀ Slot.missing) (hs.map (fun h => (h, Call.increment key)))).store.totalCount
          = Val.ofInt hs.length ∧
        ∀ k ∈ knownKeys, k ≠ key →
          getOwn (run (boot h₀ Slot.missing) (hs.map (fun h => (h, Call.increment key)))).store.counters
            k = some (Val.ofInt 0)) := by
  constructor
  · intro h w key c t hkey hguard hc ht _ _
    obtain ⟨hworld, herr⟩ := incrementCounter_of_int h w key c t hguard hc ht
    rw [hworld, herr, store_saveToStorage]
    refine ⟨animateButton_known h key hkey, getOwn_put_self _ _ _, rfl, ?_, ?_⟩
    · intro k hk
      exact getOwn_put_ne _ _ _ _ hk
    · exact ownKeys_put_of_mem _ _ _ (mem_ownKeys_of_getOwn hc)
  · intro h₀ hs key hkey
    rw [boot_missing]
    have hguard : getOwn constructed.counters (utf16 "hasOwnProperty") = none := by rfl
    have hc : getOwn constructed.counters key = some (Val.ofInt 0) := by
      simp only [knownKeys, List.mem_cons, List.mem_singleton, List.not_mem_nil, or_false] at hkey
      rcases hkey with e | e | e | e <;> subst e <;> rfl
    obtain ⟨h₁, h₂, h₃⟩ :=
      run_increments key hs { store := constructed, slot := Slot.missing } 0 0 hguard hc rfl
    refine ⟨by simpa using h₁, by simpa using h₂, ?_⟩
    intro k hk hne
    rw [h₃ k hne]
    simp only [knownKeys, List.mem_cons, List.mem_singleton, List.not_mem_nil, or_false] at hk
    rcases hk with e | e | e | e <;> subst e <;> rfl

/-- Witness of C2 amended: one increment of the third phrase on the
constructed store, and the scenario of three increments of that phrase after
a page load. -/
theorem increment_known_key_witness :
    ((incrementCounter plainHost { store := constructed, slot := Slot.missing }
        (utf16 "الله أكبر")).world.store.totalCount = Val.ofInt (0 + 1)) ∧
    ((run (boot plainHost Slot.missing)
        ([plainHost, plainHost, plainHost].map
          (fun h => (h, Call.increment (utf16 "الله أكبر"))))).store.totalCount = Val.ofInt 3) :=
  ⟨(increment_known_key.1 plainHost { store := constructed, slot := Slot.missing }
      (utf16 "الله أكبر") 0 0 (by decide) (by rfl) (by rfl) (by rfl)
      (by simp [SafeInt]) (by simp [SafeInt])).2.2.1,
   (increment_known_key.2 plainHost [plainHost, plainHost, plainHost] (utf16 "الله أكبر")
      (by decide)).2.1⟩

/-! ## Reset -/

theorem foldl_put_zero (ks : List JSString) (o : Obj) (hks : ∀ k ∈ ks, k ∈ ownKeys o) :
    ownKeys (ks.foldl (fun acc key => put acc key (Val.ofInt 0)) o) = ownKeys o ∧
    ∀ k, getOwn (ks.foldl (fun acc key => put acc key (Val.ofInt 0)) o) k
        = if k ∈ ks then some (Val.ofInt 0) else getOwn o k := by
  induction ks generalizing o with
  | nil => simp
  | cons a rest ih =>
    have ha : a ∈ ownKeys o := hks a (List.mem_cons_self _ _)
    have hkeys : ownKeys (put o a (Val.ofInt 0)) = ownKeys o := ownKeys_put_of_mem o a _ ha
    have hrest : ∀ k ∈ rest, k ∈ ownKeys (put o a (Val.ofInt 0)) := by
      intro k hk
      rw [hkeys]
      exact hks k (List.mem_cons_of_mem _ hk)
    obtain ⟨h₁, h₂⟩ := ih (put o a (Val.ofInt 0)) hrest
    simp only [List.foldl_cons]
    refine ⟨h₁.trans hkeys, ?_⟩
    intro k
    rw [h₂ k]
    by_cases hk : k ∈ rest
    · simp [hk]
    · by_cases hka : k = a
      · subst hka
        simp [hk, getOwn_put_self]
      · simp [hk, hka, getOwn_put_ne _ _ _ _ hka]

theorem foldl_put_zero_fixed (ks : List JSString) (o : Obj)
    (hks : ∀ k ∈ ks, getOwn o k = some (Val.ofInt 0)) :
    ks.foldl (fun acc key => put acc key (Val.ofInt 0)) o = o := by
  induction ks with
  | nil => rfl
  | cons a rest ih =>
    simp only [List.foldl_cons]
    rw [put_eq_self o a _ (hks a (List.mem_cons_self _ _))]
    exact ih (fun k hk => hks k (List.mem_cons_of_mem _ hk))

/-- Claim C4. In every state, `resetCounters()` with the confirmation accepted
returns normally, keeps the keys of `counters`, leaves every counter at 0 and
`totalCount` at 0; and a second confirmed reset right after it leaves the
store exactly as the first one did. -/
theorem reset_zero_idempotent (h : Host) (w : World) (hc : h.confirm = true) :
    (resetCounters h w).error = none ∧
    ownKeys (resetCounters h w).world.store.counters = ownKeys w.store.counters ∧
    (∀ k ∈ ownKeys w.store.counters,
      getOwn (resetCounters h w).world.store.counters k = some (Val.ofInt 0)) ∧
    (resetCounters h w).world.store.totalCount = Val.ofInt 0 ∧
    ∀ h' : Host, h'.confirm = true →
      (resetCounters h' (resetCounters h w).world).world.store = (resetCounters h w).world.store := by
  obtain ⟨hkeys, hget⟩ := foldl_put_zero (ownKeys w.store.counters) w.store.counters (fun _ hk => hk)
  have hzero : ∀ k ∈ ownKeys w.store.counters,
      getOwn ((ownKeys w.store.counters).foldl (fun acc key => put acc key (Val.ofInt 0))
        w.store.counters) k = some (Val.ofInt 0) := by
    intro k hk
    rw [hget k]
    simp [hk]
  refine ⟨?_, ?_, ?_, ?_, ?_⟩
  · simp [resetCounters, hc, error_saveToStorage]
  · simpa [resetCounters, hc, store_saveToStorage] using hkeys
  · simpa [resetCounters, hc, store_saveToStorage] using hzero
  · simp [resetCounters, hc, store_saveToStorage]
  · intro h' hc'
    simp only [resetCounters, hc, hc', if_true, store_saveToStorage]
    rw [hkeys, foldl_put_zero_fixed _ _ hzero]

/-- Witness of C4: the scenario with counts 2, 3, 0, 1 and total 6. -/
theorem reset_zero_idempotent_witness :
    (resetCounters plainHost { store := scenarioStore, slot := Slot.missing }).world.store.totalCount
      = Val.ofInt 0 :=
  (reset_zero_idempotent plainHost { store := scenarioStore, slot := Slot.missing } (by rfl)).2.2.2.1

/-! ## Object spread -/

theorem spread_append_one (t : Obj) (src : List (JSString × Val)) (p : JSString × Val) :
    spread t (src ++ [p]) = put (spread t src) p.1 p.2 := by
  simp [spread, List.foldl_append]

theorem spread_cons (t : Obj) (src : List (JSString × Val)) (p : JSString × Val) :
    spread t (p :: src) = spread (put t p.1 p.2) src := rfl

theorem mem_ownKeys_put (o : Obj) (k k' : JSString) (v : Val) :
    k' ∈ ownKeys (put o k v) ↔ k' = k ∨ k' ∈ ownKeys o := by
  by_cases hk : k ∈ ownKeys o
  · rw [ownKeys_put_of_mem o k v hk]
    constructor
    · exact fun hm => Or.inr hm
    · rintro (e | hm)
      · exact e ▸ hk
      · exact hm
  · rw [ownKeys_put_of_not_mem o k v hk]
    simp [ownKeys, or_comm]

theorem mem_ownKeys_spread (t : Obj) (src : List (JSString × Val)) (k : JSString) :
    k ∈ ownKeys (spread t src) ↔ k ∈ ownKeys t ∨ k ∈ src.map Prod.fst := by
  induction src generalizing t with
  | nil => simp [spread]
  | cons p rest ih =>
    rw [spread_cons, ih, mem_ownKeys_put]
    simp only [List.map_cons, List.mem_cons]
    tauto

theorem ownKeys_spread_of_subset (t : Obj) (src : List (JSString × Val))
    (hsub : ∀ p ∈ src, p.1 ∈ ownKeys t) : ownKeys (spread t src) = ownKeys t := by
  induction src generalizing t with
  | nil => rfl
  | cons p rest ih =>
    have hp : ownKeys (put t p.1 p.2) = ownKeys t :=
      ownKeys_put_of_mem t p.1 p.2 (hsub p (List.mem_cons_self _ _))
    rw [spread_cons, ih, hp]
    intro q hq
    rw [hp]
    exact hsub q (List.mem_cons_of_mem _ hq)

theorem ownKeys_spread_shape (t : Obj) (src : List (JSString × Val)) (hnd : (ownKeys t).Nodup) :
    (∃ rest, ownKeys (spread t src) = ownKeys t ++ rest) ∧ (ownKeys (spread t src)).Nodup := by
  induction src generalizing t with
  | nil => exact ⟨⟨[], by simp [spread]⟩, by simpa [spread] using hnd⟩
  | cons p rest ih =>
    rw [spread_cons]
    by_cases hp : p.1 ∈ ownKeys t
    · have hkeys := ownKeys_put_of_mem t p.1 p.2 hp
      have := ih (put t p.1 p.2) (by rw [hkeys]; exact hnd)
      rw [hkeys] at this
      exact this
    · have hput := ownKeys_put_of_not_mem t p.1 p.2 hp
      have hkeys : ownKeys (put t p.1 p.2) = ownKeys t ++ [p.1] := by
        rw [hput]; simp [ownKeys]
      have hnd' : (ownKeys (put t p.1 p.2)).Nodup := by
        rw [hkeys]
        exact List.Nodup.append hnd (List.nodup_singleton _) (by simpa using hp)
      obtain ⟨⟨r, hr⟩, hn⟩ := ih (put t p.1 p.2) hnd'
      refine ⟨⟨p.1 :: r, ?_⟩, hn⟩
      rw [hr, hkeys]
      simp

theorem spread_eq_append (t : Obj) (src : List (JSString × Val))
    (hnd : (src.map Prod.fst).Nodup) (hdis : ∀ k ∈ src.map Prod.fst, k ∉ ownKeys t) :
    spread t src = t ++ src := by
  induction src generalizing t with
  | nil => simp [spread]
  | cons p rest ih =>
    have hp : p.1 ∉ ownKeys t := hdis p.1 (by simp)
    rw [spread_cons, ownKeys_put_of_not_mem t p.1 p.2 hp]
    rw [List.map_cons, List.nodup_cons] at hnd
    rw [ih (t ++ [(p.1, p.2)]) hnd.2]
    · simp
    · intro k hk
      have h₁ : k ∉ ownKeys t := hdis k (by simp only [List.map_cons, List.mem_cons]; right; exact hk)
      have h₂ : k ≠ p.1 := by
        intro e; subst e; exact hnd.1 hk
      simp only [ownKeys, List.map_append, List.mem_append, List.map_cons, List.map_nil,
        List.mem_singleton, not_or]
      exact ⟨h₁, h₂⟩

theorem member_append_one (ms : List (JSString × JSON)) (m : JSString × JSON) (name : JSString) :
    member (ms ++ [m]) name = if m.1 = name then some m.2 else member ms name := by
  simp [member, List.foldl_append]

theorem getOwn_spread_members (t : Obj) (ms : List (JSString × JSON)) (k : JSString) :
    getOwn (spread t (ms.map (fun m => (m.1, Val.json m.2)))) k =
      match member ms k with
      | some j => some (Val.json j)
      | none => getOwn t k := by
  induction ms using List.reverseRecOn with
  | nil => simp [spread, member]
  | append_singleton ms m ih =>
    rw [List.map_append, List.map_singleton, spread_append_one, member_append_one]
    by_cases hk : m.1 = k
    · subst hk
      simp [getOwn_put_self]
    · have hk' : k ≠ m.1 := fun e => hk e.symm
      simp only [hk, if_false]
      rw [getOwn_put_ne _ _ _ _ hk', ih]

/-! ## Loading -/

theorem loadFromStorage_record (h : Host) (st : Store) (data : JSON) (c t : Option JSON)
    (hr : h.readOk = true)
    (hc : getField data (utf16 "counters") = Except.ok c)
    (ht : getField data (utf16 "totalCount") = Except.ok t) :
    loadFromStorage h { store := st, slot := Slot.record data } =
      { world := { store := { counters := spread (spread [] st.counters) (enumerableOwn c),
                              totalCount := orZero t },
                   slot := Slot.record data },
        error := none } := by
  simp [loadFromStorage, loadBody, hr, hc, ht]

theorem loadFromStorage_object (h : Host) (st : Store) (ms : List (JSString × JSON))
    (hr : h.readOk = true) :
    loadFromStorage h { store := st, slot := Slot.record (JSON.obj ms) } =
      { world := { store := { counters := spread (spread [] st.counters)
                                (enumerableOwn (member ms (utf16 "counters"))),
                              totalCount := orZero (member ms (utf16 "totalCount")) },
                   slot := Slot.record (JSON.obj ms) },
        error := none } :=
  loadFromStorage_record h st (JSON.obj ms) _ _ hr rfl rfl

theorem spread_nil_constructed : spread [] constructed.counters = constructed.counters := by
  simp +decide [spread, constructed, put]

theorem ownKeys_constructed : ownKeys constructed.counters = knownKeys := rfl

/-- Claim C6. When the stored item is missing, when reading the storage
throws, or when the stored text is not valid JSON, `loadFromStorage()` on a
freshly constructed store returns normally and leaves the store as the
constructor made it: the four phrases at 0 and `totalCount` at 0. -/
theorem load_falls_back (h : Host) (slot : Slot)
    (hbad : h.readOk = false ∨ slot = Slot.missing ∨ slot = Slot.invalid) :
    (loadFromStorage h { store := constructed, slot := slot }).error = none ∧
    (loadFromStorage h { store := constructed, slot := slot }).world.store = constructed ∧
    ownKeys (loadFromStorage h { store := constructed, slot := slot }).world.store.counters
      = knownKeys ∧
    (∀ k ∈ knownKeys,
      getOwn (loadFromStorage h { store := constructed, slot := slot }).world.store.counters k
        = some (Val.ofInt 0)) ∧
    (loadFromStorage h { store := constructed, slot := slot }).world.store.totalCount
      = Val.ofInt 0 := by
  have hload : loadFromStorage h { store := constructed, slot := slot }
      = { world := { store := constructed, slot := slot }, error := none } := by
    rcases hbad with hr | hs | hs
    · simp [loadFromStorage, loadBody, hr]
    · subst hs
      cases hr : h.readOk <;> simp [loadFromStorage, loadBody, hr]
    · subst hs
      cases hr : h.readOk <;> simp [loadFromStorage, loadBody, hr]
  rw [hload]
  refine ⟨rfl, rfl, rfl, ?_, rfl⟩
  intro k hk
  simp only [knownKeys, List.mem_cons, List.mem_singleton, List.not_mem_nil, or_false] at hk
  rcases hk with e | e | e | e <;> subst e <;> rfl

/-- Witness of C6: a stored text that `JSON.parse` rejects. -/
theorem load_falls_back_witness :
    (loadFromStorage plainHost { store := constructed, slot := Slot.invalid }).world.store
      = constructed :=
  (load_falls_back plainHost Slot.invalid (Or.inr (Or.inr rfl))).2.1

/-- Claim C7 as stated fails: the record of the scenario, written with the
field name `counts` as the specification documents it, leaves the counter of
its phrase at 0 instead of 5, because `loadFromStorage` reads the field
`counters`. -/
theorem load_counts_field_counterexample :
    getOwn (boot plainHost (Slot.record countsRecord)).store.counters (utf16 "الله أكبر")
      = some (Val.ofInt 0) ∧
    getOwn (boot plainHost (Slot.record countsRecord)).store.counters (utf16 "الله أكبر")
      ≠ some (Val.ofInt 5) ∧
    (boot plainHost (Slot.record countsRecord)).store.totalCount = Val.ofInt 5 := by
  have h₀ : getOwn (boot plainHost (Slot.record countsRecord)).store.counters (utf16 "الله أكبر")
      = some (Val.ofInt 0) := by rfl
  refine ⟨h₀, ?_, by rfl⟩
  rw [h₀]
  simp [Val.ofInt]

/-- Claim C7, amended. For every stored record that is an object whose field
`counters` (the name `saveToStorage` writes) is an object with keys among the
four phrases and whose field `totalCount` is an integer `n`, a page load sets
each phrase present under `counters` to its recorded value, leaves every other
phrase at 0, keeps exactly the four keys and sets `totalCount` to `n`. -/
theorem load_counters_field (h : Host) (ms cs : List (JSString × JSON)) (n : Int)
    (hr : h.readOk = true)
    (hc : member ms (utf16 "counters") = some (JSON.obj cs))
    (ht : member ms (utf16 "totalCount") = some (JSON.num n))
    (hkeys : ∀ m ∈ cs, m.1 ∈ knownKeys) :
    (∀ k ∈ knownKeys,
      getOwn (boot h (Slot.record (JSON.obj ms))).store.counters k =
        match member cs k with
        | some j => some (Val.json j)
        | none => some (Val.ofInt 0)) ∧
    ownKeys (boot h (Slot.record (JSON.obj ms))).store.counters = knownKeys ∧
    (boot h (Slot.record (JSON.obj ms))).store.totalCount = Val.ofInt n := by
  have hboot : (boot h (Slot.record (JSON.obj ms))).store =
      { counters := spread constructed.counters (cs.map (fun m => (m.1, Val.json m.2))),
        totalCount := orZero (some (JSON.num n)) } := by
    simp [boot, loadFromStorage_object h constructed ms hr, hc, ht, spread_nil_constructed,
      enumerableOwn]
  rw [hboot]
  refine ⟨?_, ?_, ?_⟩
  · intro k hk
    simp only
    rw [getOwn_spread_members]
    cases hm : member cs k with
    | some j => rfl
    | none =>
      simp only [knownKeys, List.mem_cons, List.mem_singleton, List.not_mem_nil, or_false] at hk
      rcases hk with e | e | e | e <;> subst e <;> rfl
  · simp only
    rw [ownKeys_spread_of_subset, ownKeys_constructed]
    intro p hp
    rw [ownKeys_constructed]
    obtain ⟨m, hm, rfl⟩ := List.mem_map.1 hp
    exact hkeys m hm
  · by_cases hn : n = 0
    · subst hn
      simp [orZero, JSON.truthy]
    · simp [orZero, JSON.truthy, hn, Val.ofInt]

/-- Witness of C7 amended: the scenario record with the field name the code
uses, `counters`. -/
theorem load_counters_field_witness :
    (boot plainHost (Slot.record (JSON.obj
        [(utf16 "counters", JSON.obj [(utf16 "الله أكبر", JSON.num 5)]),
         (utf16 "totalCount", JSON.num 5)]))).store.totalCount = Val.ofInt 5 :=
  (load_counters_field plainHost
      [(utf16 "counters", JSON.obj [(utf16 "الله أكبر", JSON.num 5)]),
       (utf16 "totalCount", JSON.num 5)]
      [(utf16 "الله أكبر", JSON.num 5)] 5 rfl (by rfl) (by rfl)
      (by intro m hm; simp only [List.mem_singleton] at hm; subst hm; decide)).2.2

/-- Claim C8 as stated fails: for a record without `totalCount` whose restored
counters sum to 5, a page load leaves `totalCount` at 0, not at the sum. -/
theorem load_total_counterexample :
    sumValues (boot plainHost (Slot.record noTotalRecord)).store.counters = some 5 ∧
    (boot plainHost (Slot.record noTotalRecord)).store.totalCount = Val.ofInt 0 ∧
    (boot plainHost (Slot.record noTotalRecord)).store.totalCount ≠ Val.ofInt 5 := by
  have h₀ : (boot plainHost (Slot.record noTotalRecord)).store.totalCount = Val.ofInt 0 := by rfl
  refine ⟨by rfl, h₀, ?_⟩
  rw [h₀]
  simp [Val.ofInt]

/-- Claim C8, amended. For every parseable record that is an object, whatever
the store held before, `loadFromStorage()` takes `totalCount` from the record
when the record's `totalCount` is a number, and more generally whenever it is
truthy; when it is absent or falsy (`null`, `false`, the empty string) it sets
`totalCount` to 0. The restored counters are never summed. A parseable record
that is not an object and not `null` also gives 0. -/
theorem load_total (h : Host) (st : Store) (hr : h.readOk = true) :
    (∀ (ms : List (JSString × JSON)),
      (∀ n : Int, member ms (utf16 "totalCount") = some (JSON.num n) →
        (loadFromStorage h { store := st, slot := Slot.record (JSON.obj ms) }).world.store.totalCount
          = Val.ofInt n) ∧
      (∀ j : JSON, member ms (utf16 "totalCount") = some j → j.truthy = true →
        (loadFromStorage h { store := st, slot := Slot.record (JSON.obj ms) }).world.store.totalCount
          = Val.json j) ∧
      (∀ j : JSON, member ms (utf16 "totalCount") = some j → j.truthy = false →
        (loadFromStorage h { store := st, slot := Slot.record (JSON.obj ms) }).world.store.totalCount
          = Val.ofInt 0) ∧
      (member ms (utf16 "totalCount") = none →
        (loadFromStorage h { store := st, slot := Slot.record (JSON.obj ms) }).world.store.totalCount
          = Val.ofInt 0)) ∧
    (∀ data : JSON, data ≠ JSON.null → (∀ ms, data ≠ JSON.obj ms) →
        (loadFromStorage h { store := st, slot := Slot.record data }).world.store.totalCount
          = Val.ofInt 0) := by
  constructor
  · intro ms
    rw [loadFromStorage_object h st ms hr]
    refine ⟨?_, ?_, ?_, ?_⟩
    · intro n hn
      by_cases h0 : n = 0
      · subst h0
        simp [hn, orZero, JSON.truthy]
      · simp [hn, orZero, JSON.truthy, h0, Val.ofInt]
    · intro j hj htr
      simp [hj, orZero, htr]
    · intro j hj htr
      simp [hj, orZero, htr]
    · intro hnone
      simp [hnone, orZero]
  · intro data hnull hobj
    cases data with
    | null => exact absurd rfl hnull
    | obj ms => exact absurd rfl (hobj ms)
    | bool b => rw [loadFromStorage_record h st (JSON.bool b) none none hr rfl rfl]; rfl
    | num n => rw [loadFromStorage_record h st (JSON.num n) none none hr rfl rfl]; rfl
    | str s => rw [loadFromStorage_record h st (JSON.str s) none none hr rfl rfl]; rfl
    | arr xs => rw [loadFromStorage_record h st (JSON.arr xs) none none hr rfl rfl]; rfl

/-- Witness of C8 amended: the record without `totalCount`. -/
theorem load_total_witness :
    (loadFromStorage plainHost
        { store := constructed, slot := Slot.record noTotalRecord }).world.store.totalCount
      = Val.ofInt 0 :=
  ((load_total plainHost constructed rfl).1
      [(utf16 "counters", JSON.obj [(utf16 "الله أكبر", JSON.num 5)])]).2.2.2 (by rfl)

/-! ## The keys of `counters` -/

theorem ownKeys_incrementCounter (h : Host) (w : World) (key : JSString) :
    ownKeys (incrementCounter h w key).world.store.counters = ownKeys w.store.counters := by
  cases hg : getOwn w.store.counters (utf16 "hasOwnProperty") with
  | some _ => simp only [incrementCounter, hg]
  | none =>
    cases hk : getOwn w.store.counters key with
    | none => simp only [incrementCounter, hg, hk]
    | some old =>
      have hmem : key ∈ ownKeys w.store.counters := mem_ownKeys_of_getOwn hk
      cases hv : postIncrement h old with
      | none => simp only [incrementCounter, hg, hk, hv]
      | some v =>
        cases ht : postIncrement h w.store.totalCount with
        | none =>
          simp only [incrementCounter, hg, hk, hv, ht]
          exact ownKeys_put_of_mem _ _ _ hmem
        | some t =>
          cases ha : animateButton h key <;>
            simp only [incrementCounter, hg, hk, hv, ht, ha, store_saveToStorage] <;>
            exact ownKeys_put_of_mem _ _ _ hmem

theorem ownKeys_resetCounters (h : Host) (w : World) :
    ownKeys (resetCounters h w).world.store.counters = ownKeys w.store.counters := by
  cases hc : h.confirm
  · simp [resetCounters, hc]
  · simp only [resetCounters, hc, if_true, store_saveToStorage]
    exact (foldl_put_zero (ownKeys w.store.counters) w.store.counters (fun _ hk => hk)).1

theorem ownKeys_run (cs : List (Host × Call)) (w : World) :
    ownKeys (run w cs).store.counters = ownKeys w.store.counters := by
  induction cs generalizing w with
  | nil => rfl
  | cons c rest ih =>
    have hstep : ownKeys (step w c).store.counters = ownKeys w.store.counters := by
      obtain ⟨h, call⟩ := c
      cases call with
      | increment key => exact ownKeys_incrementCounter h w key
      | reset => exact ownKeys_resetCounters h w
    simp only [run, List.foldl_cons]
    exact (ih (step w c)).trans hstep

theorem boot_counters (h₀ : Host) (slot : Slot) :
    (boot h₀ slot).store.counters =
      spread constructed.counters
        (if h₀.readOk = true then
          match slot with
          | Slot.record data =>
            match getField data (utf16 "counters") with
            | Except.ok c => enumerableOwn c
            | Except.error _ => []
          | _ => []
        else []) := by
  cases hr : h₀.readOk
  · simp [boot, loadFromStorage, loadBody, hr, spread]
  · cases slot with
    | missing => simp [boot, loadFromStorage, loadBody, hr, spread]
    | empty => simp [boot, loadFromStorage, loadBody, hr, spread]
    | invalid => simp [boot, loadFromStorage, loadBody, hr, spread]
    | record data =>
      cases data with
      | null => simp [boot, loadFromStorage, loadBody, hr, spread, getField]
      | obj ms =>
        simp [boot, loadFromStorage_object h₀ constructed ms hr, spread_nil_constructed, getField]
      | bool b =>
        simp [boot, loadFromStorage_record h₀ constructed (JSON.bool b) none none hr rfl rfl,
          spread_nil_constructed, getField]
      | num n =>
        simp [boot, loadFromStorage_record h₀ constructed (JSON.num n) none none hr rfl rfl,
          spread_nil_constructed, getField]
      | str s =>
        simp [boot, loadFromStorage_record h₀ constructed (JSON.str s) none none hr rfl rfl,
          spread_nil_constructed, getField]
      | arr xs =>
        simp [boot, loadFromStorage_record h₀ constructed (JSON.arr xs) none none hr rfl rfl,
          spread_nil_constructed, getField]

theorem mem_ownKeys_boot (h₀ : Host) (slot : Slot) (k : JSString) :
    k ∈ ownKeys (boot h₀ slot).store.counters ↔
      k ∈ knownKeys ∨ (h₀.readOk = true ∧ k ∈ recordKeys slot) := by
  rw [boot_counters, mem_ownKeys_spread, ownKeys_constructed]
  cases hr : h₀.readOk
  · simp
  · cases slot with
    | missing => simp [recordKeys]
    | empty => simp [recordKeys]
    | invalid => simp [recordKeys]
    | record data =>
      simp only [recordKeys, if_true, true_and]
      cases getField data (utf16 "counters") <;> simp

/-- Claim C9 as stated fails: a page load from a record whose `counters`
object has the key `x` leaves `counters` with a fifth key. -/
theorem keys_counterexample :
    utf16 "x" ∉ knownKeys ∧
    ownKeys (boot plainHost (Slot.record extraKeyRecord)).store.counters
      = knownKeys ++ [utf16 "x"] := by
  decide

/-- Claim C9, amended. After a page load the keys of `counters` are the four
phrases together with the names of the properties of the value of the record's
`counters` field (none when there is no record, when it cannot be read or
parsed, or when that field is absent); and from then on no sequence of
increments and resets adds or removes a key. -/
theorem keys_after_load (h₀ : Host) (slot : Slot) (calls : List (Host × Call)) :
    (∀ k, k ∈ ownKeys (boot h₀ slot).store.counters ↔
      k ∈ knownKeys ∨ (h₀.readOk = true ∧ k ∈ recordKeys slot)) ∧
    ownKeys (run (boot h₀ slot) calls).store.counters = ownKeys (boot h₀ slot).store.counters :=
  ⟨mem_ownKeys_boot h₀ slot, ownKeys_run calls (boot h₀ slot)⟩

/-- Claim C3 as stated fails: after a page load from a record whose `counters`
object has the key `x`, which is none of the four phrases,
`incrementCounter("x")` raises `counters["x"]` from 1 to 2 and `totalCount`
from 1 to 2. -/
theorem unknown_key_counterexample :
    utf16 "x" ∉ knownKeys ∧
    getOwn (boot plainHost (Slot.record extraKeyRecord)).store.counters (utf16 "x")
      = some (Val.ofInt 1) ∧
    (boot plainHost (Slot.record extraKeyRecord)).store.totalCount = Val.ofInt 1 ∧
    getOwn (incrementCounter plainHost (boot plainHost (Slot.record extraKeyRecord))
        (utf16 "x")).world.store.counters (utf16 "x") = some (Val.ofInt 2) ∧
    (incrementCounter plainHost (boot plainHost (Slot.record extraKeyRecord))
        (utf16 "x")).world.store.totalCount = Val.ofInt 2 ∧
    (incrementCounter plainHost (boot plainHost (Slot.record extraKeyRecord))
        (utf16 "x")).world.store.totalCount
      ≠ (boot plainHost (Slot.record extraKeyRecord)).store.totalCount := by
  have h₁ : (boot plainHost (Slot.record extraKeyRecord)).store.totalCount = Val.ofInt 1 := by rfl
  have h₂ : (incrementCounter plainHost (boot plainHost (Slot.record extraKeyRecord))
      (utf16 "x")).world.store.totalCount = Val.ofInt 2 := by rfl
  refine ⟨by decide, by rfl, h₁, by rfl, h₂, ?_⟩
  rw [h₁, h₂]
  simp [Val.ofInt]

/-- Claim C3, amended. In every state reached by a page load (any stored
record, or none) followed by any sequence of increments and resets, for every
string key that is none of the four phrases and not the name of a property of
the value of the loaded record's `counters` field, `incrementCounter(key)`
changes neither `counters` nor `totalCount`, and writes nothing to storage. -/
theorem unknown_key_unchanged (h₀ : Host) (slot : Slot) (calls : List (Host × Call))
    (h : Host) (key : JSString)
    (hknown : key ∉ knownKeys) (hrec : key ∉ recordKeys slot) :
    (incrementCounter h (run (boot h₀ slot) calls) key).world = run (boot h₀ slot) calls := by
  apply incrementCounter_of_not_own
  rw [getOwn_eq_none_iff, ownKeys_run, mem_ownKeys_boot]
  rintro (hk | ⟨_, hk⟩)
  · exact hknown hk
  · exact hrec hk

/-- Witness of C3 amended: the key `y` after a page load from the record with
the extra key `x`. -/
theorem unknown_key_unchanged_witness :
    (incrementCounter plainHost (run (boot plainHost (Slot.record extraKeyRecord)) [])
        (utf16 "y")).world = run (boot plainHost (Slot.record extraKeyRecord)) [] :=
  unknown_key_unchanged plainHost (Slot.record extraKeyRecord) [] plainHost (utf16 "y")
    (by decide) (by decide)

/-! ## Saving, then loading in a new session -/

theorem reachable_shape (w : World) (hw : Reachable w) :
    (∃ rest, ownKeys w.store.counters = knownKeys ++ rest) ∧ (ownKeys w.store.counters).Nodup := by
  obtain ⟨h₀, slot, calls, rfl⟩ := hw
  rw [ownKeys_run, boot_counters]
  have hnd : (ownKeys constructed.counters).Nodup := by
    rw [ownKeys_constructed]; decide
  have := ownKeys_spread_shape constructed.counters
    (if h₀.readOk = true then
      match slot with
      | Slot.record data =>
        match getField data (utf16 "counters") with
        | Except.ok c => enumerableOwn c
        | Except.error _ => []
      | _ => []
    else []) hnd
  rw [ownKeys_constructed] at this
  exact this

theorem spread_constructed_self (o : Obj) (rest : List JSString)
    (hkeys : ownKeys o = knownKeys ++ rest) (hnd : (ownKeys o).Nodup) :
    spread constructed.counters o = o := by
  rcases o with _ | ⟨⟨k₁, v₁⟩, _ | ⟨⟨k₂, v₂⟩, _ | ⟨⟨k₃, v₃⟩, _ | ⟨⟨k₄, v₄⟩, tail⟩⟩⟩⟩ <;>
    simp only [ownKeys, knownKeys, List.map_cons, List.map_nil, List.cons_append, List.nil_append,
      List.cons.injEq, reduceCtorEq, and_false, false_and] at hkeys
  obtain ⟨e₁, e₂, e₃, e₄, htail⟩ := hkeys
  subst e₁ e₂ e₃ e₄
  have hfour : spread constructed.counters
      [(utf16 "سبحان الله وبحمده", v₁), (utf16 "الحمد لله", v₂), (utf16 "الله أكبر", v₃),
        (utf16 "اللهم ارفع درجته", v₄)] =
      [(utf16 "سبحان الله وبحمده", v₁), (utf16 "الحمد لله", v₂), (utf16 "الله أكبر", v₃),
        (utf16 "اللهم ارفع درجته", v₄)] := by
    simp +decide [spread, constructed, put]
  have hsplit : spread constructed.counters
      ((utf16 "سبحان الله وبحمده", v₁) :: (utf16 "الحمد لله", v₂) :: (utf16 "الله أكبر", v₃) ::
        (utf16 "اللهم ارفع درجته", v₄) :: tail) =
      spread (spread constructed.counters
        [(utf16 "سبحان الله وبحمده", v₁), (utf16 "الحمد لله", v₂), (utf16 "الله أكبر", v₃),
          (utf16 "اللهم ارفع درجته", v₄)]) tail := rfl
  rw [hsplit, hfour]
  simp only [ownKeys, List.map_cons, List.nodup_cons, List.mem_cons, not_or] at hnd
  obtain ⟨⟨_, _, _, h₁⟩, ⟨_, _, h₂⟩, ⟨_, h₃⟩, h₄, hnt⟩ := hnd
  rw [spread_eq_append _ _ hnt]
  · rfl
  · intro k hk
    simp only [ownKeys, List.map_cons, List.map_nil, List.mem_cons, List.not_mem_nil,
      or_false, not_or]
    refine ⟨?_, ?_, ?_, ?_⟩ <;> (intro e; subst e; first | exact h₁ hk | exact h₂ hk | exact h₃ hk | exact h₄ hk)

theorem map_jsonify_of_int (o : Obj) (hints : ∀ p ∈ o, ∃ n : Int, p.2 = Val.ofInt n) :
    (o.map (fun p => (p.1, jsonify p.2))).map (fun m => (m.1, Val.json m.2)) = o := by
  rw [List.map_map]
  conv_rhs => rw [← List.map_id o]
  apply List.map_congr_left
  intro p hp
  obtain ⟨n, hn⟩ := hints p hp
  obtain ⟨k, v⟩ := p
  simp only at hn
  subst hn
  rfl

/-- Claim C5. For every state a counter object can be in (a page load from any
slot, then any calls) whose counters are integers and whose `totalCount` is an
integer, if `saveToStorage()` succeeds, then `loadFromStorage()` run on a
freshly constructed store that reads the same slot returns normally and leaves
that store with exactly the `counters` and the `totalCount` that were saved. -/
theorem save_then_load (w : World) (hsave hload : Host)
    (hreach : Reachable w)
    (hints : ∀ p ∈ w.store.counters, ∃ n : Int, p.2 = Val.ofInt n)
    (htotal : ∃ n : Int, w.store.totalCount = Val.ofInt n)
    (hwrite : hsave.writeOk = true) (hread : hload.readOk = true) :
    (loadFromStorage hload
        { store := constructed, slot := (saveToStorage hsave w).world.slot }).error = none ∧
    (loadFromStorage hload
        { store := constructed, slot := (saveToStorage hsave w).world.slot }).world.store
      = w.store := by
  obtain ⟨⟨rest, hkeys⟩, hnd⟩ := reachable_shape w hreach
  obtain ⟨n, hn⟩ := htotal
  have hslot : (saveToStorage hsave w).world.slot = Slot.record (serialize w.store hsave.now) := by
    simp [saveToStorage, saveBody, hwrite]
  have hc : member
      [(utf16 "counters", JSON.obj (w.store.counters.map (fun p => (p.1, jsonify p.2)))),
       (utf16 "totalCount", jsonify w.store.totalCount),
       (utf16 "lastUpdated", JSON.str hsave.now)] (utf16 "counters")
      = some (JSON.obj (w.store.counters.map (fun p => (p.1, jsonify p.2)))) := by
    simp +decide [member]
  have ht : member
      [(utf16 "counters", JSON.obj (w.store.counters.map (fun p => (p.1, jsonify p.2)))),
       (utf16 "totalCount", jsonify w.store.totalCount),
       (utf16 "lastUpdated", JSON.str hsave.now)] (utf16 "totalCount")
      = some (jsonify w.store.totalCount) := by
    simp +decide [member]
  have htot : orZero (some (jsonify w.store.totalCount)) = w.store.totalCount := by
    rw [hn]
    by_cases h0 : n = 0
    · subst h0
      simp [orZero, jsonify, Val.ofInt, JSON.truthy]
    · simp [orZero, jsonify, Val.ofInt, JSON.truthy, h0]
  rw [hslot, serialize, loadFromStorage_object hload constructed _ hread, hc, ht, htot,
    spread_nil_constructed]
  refine ⟨rfl, ?_⟩
  simp only [enumerableOwn]
  rw [map_jsonify_of_int _ hints, spread_constructed_self _ rest hkeys hnd]

/-- Witness of C5: the state after one increment of the third phrase, from a
page load without a record. -/
theorem save_then_load_witness :
    (loadFromStorage plainHost
        { store := constructed,
          slot := (saveToStorage plainHost (run (boot plainHost Slot.missing)
            [(plainHost, Call.increment (utf16 "الله أكبر"))])).world.slot }).world.store
      = (run (boot plainHost Slot.missing)
          [(plainHost, Call.increment (utf16 "الله أكبر"))]).store :=
  (save_then_load
      (run (boot plainHost Slot.missing) [(plainHost, Call.increment (utf16 "الله أكبر"))])
      plainHost plainHost
      ⟨plainHost, Slot.missing, [(plainHost, Call.increment (utf16 "الله أكبر"))], rfl⟩
      (by
        intro p hp
        have hp' : p ∈ [(utf16 "سبحان الله وبحمده", Val.ofInt 0), (utf16 "الحمد لله", Val.ofInt 0),
            (utf16 "الله أكبر", Val.ofInt 1), (utf16 "اللهم ارفع درجته", Val.ofInt 0)] := hp
        simp only [List.mem_cons, List.mem_singleton, List.not_mem_nil, or_false] at hp'
        rcases hp' with e | e | e | e <;> subst e
        · exact ⟨0, rfl⟩
        · exact ⟨0, rfl⟩
        · exact ⟨1, rfl⟩
        · exact ⟨0, rfl⟩)
      ⟨1, rfl⟩ rfl rfl).2

/-! ## A storage write that fails -/

theorem saveToStorage_of_write_fails (h : Host) (w : World) (hfail : h.writeOk = false) :
    saveToStorage h w = { world := w, error := none } := by
  simp [saveToStorage, saveBody, hfail]

theorem incrementCounter_store_any_write (h : Host) (w : World) (key : JSString) (b : Bool) :
    (incrementCounter { h with writeOk := b } w key).world.store
        = (incrementCounter h w key).world.store ∧
      (incrementCounter { h with writeOk := b } w key).error = (incrementCounter h w key).error := by
  have hpost : ∀ v, postIncrement { h with writeOk := b } v = postIncrement h v := by
    intro v
    cases v with
    | json j => cases j <;> rfl
    | nan => rfl
    | inf s => rfl
  cases hg : getOwn w.store.counters (utf16 "hasOwnProperty") with
  | some _ => simp only [incrementCounter, hg, and_self]
  | none =>
    cases hk : getOwn w.store.counters key with
    | none => simp only [incrementCounter, hg, hk, and_self]
    | some old =>
      cases hv : postIncrement h old with
      | none => simp only [incrementCounter, hg, hk, hpost, hv, and_self]
      | some v =>
        cases ht : postIncrement h w.store.totalCount with
        | none => simp only [incrementCounter, hg, hk, hpost, hv, ht, and_self]
        | some t =>
          have hanim : animateButton { h with writeOk := b } key = animateButton h key := rfl
          cases ha : animateButton h key <;>
            simp only [incrementCounter, hg, hk, hpost, hv, ht, hanim, ha, store_saveToStorage,
              error_saveToStorage, and_self]

theorem incrementCounter_slot_of_write_fails (h : Host) (w : World) (key : JSString)
    (hfail : h.writeOk = false) : (incrementCounter h w key).world.slot = w.slot := by
  cases hg : getOwn w.store.counters (utf16 "hasOwnProperty") with
  | some _ => simp only [incrementCounter, hg]
  | none =>
    cases hk : getOwn w.store.counters key with
    | none => simp only [incrementCounter, hg, hk]
    | some old =>
      cases hv : postIncrement h old with
      | none => simp only [incrementCounter, hg, hk, hv]
      | some v =>
        cases ht : postIncrement h w.store.totalCount with
        | none => simp only [incrementCounter, hg, hk, hv, ht]
        | some t =>
          cases ha : animateButton h key <;>
            simp only [incrementCounter, hg, hk, hv, ht, ha, saveToStorage_of_write_fails h _ hfail]

/-- Claim C10. When the storage write throws, `incrementCounter(key)` and a
confirmed `resetCounters()` end exactly as they do when the write succeeds,
with the same `counters` and `totalCount` in memory: the failure is caught,
nothing is rolled back and only the stored item stays as it was. So with a
failing write an increment of one of the four phrases, in a state where the
guard can be evaluated and the counter and `totalCount` are integers `n` with
`-2^53 ≤ n < 2^53`, still returns normally with both raised by 1, and a
confirmed reset still returns normally with every counter and `totalCount`
at 0. -/
theorem write_failure_swallowed (h : Host) (w : World) (key : JSString)
    (hfail : h.writeOk = false) :
    ((incrementCounter h w key).error = (incrementCounter { h with writeOk := true } w key).error ∧
      (incrementCounter h w key).world.store
        = (incrementCounter { h with writeOk := true } w key).world.store ∧
      (incrementCounter h w key).world.slot = w.slot) ∧
    (∀ c t : Int,
      key ∈ knownKeys →
      getOwn w.store.counters (utf16 "hasOwnProperty") = none →
      getOwn w.store.counters key = some (Val.ofInt c) →
      w.store.totalCount = Val.ofInt t →
      SafeInt c → SafeInt t →
        (incrementCounter h w key).error = none ∧
        getOwn (incrementCounter h w key).world.store.counters key = some (Val.ofInt (c + 1)) ∧
        (incrementCounter h w key).world.store.totalCount = Val.ofInt (t + 1)) ∧
    (h.confirm = true →
      (resetCounters h w).error = none ∧
      (resetCounters h w).world.store = (resetCounters { h with writeOk := true } w).world.store ∧
      (resetCounters h w).world.slot = w.slot ∧
      (∀ k ∈ ownKeys w.store.counters,
        getOwn (resetCounters h w).world.store.counters k = some (Val.ofInt 0)) ∧
      (resetCounters h w).world.store.totalCount = Val.ofInt 0) := by
  refine ⟨⟨?_, ?_, ?_⟩, ?_, ?_⟩
  · exact (incrementCounter_store_any_write h w key true).2.symm
  · exact (incrementCounter_store_any_write h w key true).1.symm
  · exact incrementCounter_slot_of_write_fails h w key hfail
  · intro c t hkey hguard hc ht _ _
    obtain ⟨hworld, herr⟩ := incrementCounter_of_int h w key c t hguard hc ht
    rw [hworld, herr, store_saveToStorage]
    exact ⟨animateButton_known h key hkey, getOwn_put_self _ _ _, rfl⟩
  · intro hconf
    obtain ⟨_, hget⟩ :=
      foldl_put_zero (ownKeys w.store.counters) w.store.counters (fun _ hk => hk)
    refine ⟨?_, ?_, ?_, ?_, ?_⟩
    · simp [resetCounters, hconf, error_saveToStorage]
    · simp [resetCounters, hconf, store_saveToStorage]
    · simp [resetCounters, hconf, saveToStorage_of_write_fails h _ hfail]
    · intro k hk
      simp only [resetCounters, hconf, if_true, store_saveToStorage]
      rw [hget k]
      simp [hk]
    · simp [resetCounters, hconf, store_saveToStorage]

/-- Witness of C10: an increment of the third phrase on the constructed store
while the storage write throws. -/
theorem write_failure_swallowed_witness :
    (incrementCounter { plainHost with writeOk := false }
        { store := constructed, slot := Slot.missing } (utf16 "الله أكبر")).world.store.totalCount
      = Val.ofInt (0 + 1) :=
  ((write_failure_swallowed { plainHost with writeOk := false }
      { store := constructed, slot := Slot.missing } (utf16 "الله أكبر") rfl).2.1
      0 0 (by decide) (by rfl) (by rfl) (by rfl) (by simp [SafeInt]) (by simp [SafeInt])).2.2

end Tasbih
